import Mathlib

/-!
Verification of the roz motion-intensity heatmap pipeline.

This file gives a shallow embedding of the query/render subsystem of the
repository and proves the specified properties about it.

Embedding conventions:
* JavaScript numbers are modelled as rationals; 32-bit float matrix
  entries at the storage boundary are modelled by their bit patterns
  (naturals below 2 to the 32), so the codec layer is bit-for-bit exact.
* Byte buffers are lists of naturals below 256.
* Fallible code returns `Except String`; `null` returns `Option`.
* The relational store is a list of rows; the SQL WHERE/ORDER BY clauses
  of the kysely queries are modelled by filtering and stable sorting.
-/

namespace Roz

/-! ## Byte-level intensity codec

Source: `decompressHeatmap` in the heatmap image generator
(src/unnamed/part_004, lines 46-69), which zlib-inflates the stored blob
and reinterprets the bytes as a Float32Array (32-bit little-endian words
in row-major order, element count = byte length divided by 4, rounded
down, exactly as the JavaScript `Float32Array(buffer, off, len/4)`
constructor truncates the fractional element count via ToIndex). -/

/-- Little-endian 4-byte serialization of one 32-bit word
(the bit pattern of one float32 matrix element). -/
def word32ToLEBytes (w : Nat) : List Nat :=
  [w % 256, w / 256 % 256, w / 65536 % 256, w / 16777216 % 256]

/-- Reassemble one 32-bit word from four little-endian bytes. -/
def leBytesToWord32 (b0 b1 b2 b3 : Nat) : Nat :=
  b0 + 256 * b1 + 65536 * b2 + 16777216 * b3

/-- Row-major serialization of a matrix of float32 bit patterns,
4 bytes per element, little-endian. -/
def serializeMatrix (matrix : List Nat) : List Nat :=
  (matrix.map word32ToLEBytes).flatten

/-- Reinterpretation of a byte buffer as consecutive 32-bit little-endian
words: the JavaScript `new Float32Array(buffer, byteOffset, byteLength / 4)`
view. Trailing 1-3 bytes beyond the last whole word are dropped, because
ToIndex truncates the fractional length `byteLength / 4`. -/
def bytesToWords : List Nat → List Nat
  | b0 :: b1 :: b2 :: b3 :: rest => leBytesToWord32 b0 b1 b2 b3 :: bytesToWords rest
  | _ => []

/-- Modelled from the spec: the stored blob is the matrix bytes run through
"a general-purpose lossless compressor" (zlib DEFLATE, section 4.3 and
section 6 of the spec). The zlib library itself is an external collaborator
whose implementation is not part of this repository, so compression is
modelled as an executable lossless self-delimiting byte-stream code (a
unary length header followed by the payload); losslessness
(`inflateModel (deflateModel bs) = some bs`) is the only property of
DEFLATE the repository relies on. -/
def deflateModel (bs : List Nat) : List Nat :=
  List.replicate bs.length 1 ++ 0 :: bs

/-- Helper for `inflateModel`: consume the unary header, then check the
declared payload length; corrupt input yields `none`. -/
def inflateAux : Nat → List Nat → Option (List Nat)
  | n, 0 :: rest => if rest.length = n then some rest else none
  | n, 1 :: rest => inflateAux (n + 1) rest
  | _, _ => none

/-- Modelled from the spec: zlib inflate, the inverse of `deflateModel`;
fails (`none`) on input that is not a valid compressed stream. -/
def inflateModel (blob : List Nat) : Option (List Nat) :=
  inflateAux 0 blob

/-- The decoder `decompressHeatmap(compressedData, height, width)` from
src/unnamed/part_004 lines 46-69: inflate the blob, view the bytes as a
Float32Array (whole 32-bit little-endian words), and throw
"Invalid heatmap dimensions" when the element count of that view differs
from `height * width`. -/
def decompressHeatmap (compressedData : List Nat) (height width : Nat) :
    Except String (List Nat) :=
  match inflateModel compressedData with
  | none => Except.error "incorrect header check"
  | some decompressed =>
    let float32Array := bytesToWords decompressed
    if float32Array.length ≠ height * width then
      Except.error ("Invalid heatmap dimensions: expected " ++
        toString (height * width) ++ ", got " ++ toString float32Array.length)
    else
      Except.ok float32Array

/-- Modelled from the spec: the analytics-side encoder (the Python worker
is not among the provided sources) serializes the matrix "in a fixed,
documented element order (row-major), as 32-bit floating point, then
applies a general-purpose lossless compressor" (spec section 4.3; binary
layout in section 6). -/
def encodeHeatmap (matrix : List Nat) : List Nat :=
  deflateModel (serializeMatrix matrix)

/-! ## Data model of the query/render path

Source: interfaces `HeatmapMinuteRecord` and `AggregatedHeatmapData` in
src/app/src/lib/dao/heatmapDao.ts. Timestamps are millisecond-epoch
integers (JavaScript Date values); numeric fields are rationals. The
`intensity_array` field carries the decompressed float32 matrix content
of the stored blob (the bit-exact blob layer is verified separately by
the codec theorems above). -/

structure HeatmapMinuteRecord where
  id : Nat
  camera_id : String
  timestamp : Int
  video_path : String
  height : Nat
  width : Nat
  downscale_factor : ℚ
  intensity_array : List ℚ
  frame_count : Nat
  total_intensity : ℚ
  max_intensity : ℚ
  nonzero_pixels : Nat
  processed_at : Int
deriving DecidableEq

structure AggregatedHeatmapData where
  height : Nat
  width : Nat
  records : List HeatmapMinuteRecord
  totalMinutes : Nat
deriving DecidableEq

/-! ## Renderer

Source: `applyJetColormap`, `aggregateHeatmaps`, `generateHeatmapImage`
and `calculateHeatmapStats` in src/unnamed/part_004. The final JPEG
encoding is performed by the external `sharp` library and is out of
scope; the image is modelled as its raw RGB raster, one integer triple
per pixel in row-major order. -/

/-- JavaScript `Math.round`: round half toward positive infinity. -/
def jsRound (q : ℚ) : ℤ :=
  ⌊q + 1 / 2⌋

/-- The jet colormap (src/unnamed/part_004 lines 12-41): clamp the input
to [0,1], pick one of five linear segments with breakpoints at
1/8, 3/8, 5/8, 7/8, scale each channel by 255 and round. -/
def applyJetColormap (normalized : ℚ) : ℤ × ℤ × ℤ :=
  let value := max 0 (min 1 normalized)
  let rgb : ℚ × ℚ × ℚ :=
    if value < 1 / 8 then (0, 0, 1 / 2 + value * 4)
    else if value < 3 / 8 then (0, (value - 1 / 8) * 4, 1)
    else if value < 5 / 8 then ((value - 3 / 8) * 4, 1, 1 - (value - 3 / 8) * 4)
    else if value < 7 / 8 then (1, 1 - (value - 5 / 8) * 4, 0)
    else (1 - (value - 7 / 8) * 4, 0, 0)
  (jsRound (rgb.1 * 255), jsRound (rgb.2.1 * 255), jsRound (rgb.2.2 * 255))

/-- The dimension validation inside `decompressHeatmap` (lines 61-66 of
src/unnamed/part_004) at the level of decoded matrices: the decompressed
element count must equal the requested `height * width`. -/
def validateMatrix (matrix : List ℚ) (height width : Nat) :
    Except String (List ℚ) :=
  if matrix.length ≠ height * width then
    Except.error ("Invalid heatmap dimensions: expected " ++
      toString (height * width) ++ ", got " ++ toString matrix.length)
  else
    Except.ok matrix

/-- The summing loop of `aggregateHeatmaps` (src/unnamed/part_004 lines
82-91): decode each record against the dimensions of the request and add
it elementwise into the accumulator. -/
def sumHeatmaps (height width : Nat) :
    List HeatmapMinuteRecord → List ℚ → Except String (List ℚ)
  | [], aggregated => Except.ok aggregated
  | record :: rest, aggregated =>
    match validateMatrix record.intensity_array height width with
    | Except.error e => Except.error e
    | Except.ok heatmap =>
      sumHeatmaps height width rest (List.zipWith (fun a b => a + b) aggregated heatmap)

/-- `aggregateHeatmaps` (src/unnamed/part_004 lines 74-94): starting from
an all-zero accumulator of `height * width` elements, sum every decoded
record matrix. -/
def aggregateHeatmaps (data : AggregatedHeatmapData) : Except String (List ℚ) :=
  sumHeatmaps data.height data.width data.records
    (List.replicate (data.height * data.width) 0)

/-- The max-scan of `generateHeatmapImage` (src/unnamed/part_004 lines
113-118): fold over the aggregate starting from 0, keeping the larger
value. -/
def listMaxFold (aggregated : List ℚ) : ℚ :=
  aggregated.foldl (fun maxValue v => if v > maxValue then v else maxValue) 0

/-- `generateHeatmapImage` (src/unnamed/part_004 lines 99-150) up to the
external JPEG encoding: aggregate, find the maximum, clamp a zero maximum
to 1, normalize each element and map it through the jet colormap. -/
def generateHeatmapImage (data : AggregatedHeatmapData) :
    Except String (List (ℤ × ℤ × ℤ)) :=
  match aggregateHeatmaps data with
  | Except.error e => Except.error e
  | Except.ok aggregated =>
    let maxValue := listMaxFold aggregated
    let maxValue := if maxValue = 0 then 1 else maxValue
    Except.ok (aggregated.map (fun v => applyJetColormap (v / maxValue)))

structure HeatmapStats where
  totalMinutes : Nat
  totalIntensity : ℚ
  maxIntensity : ℚ
  avgIntensity : ℚ
deriving DecidableEq

/-- JavaScript `Math.max(...xs)` on a spread list. On the empty list the
JavaScript value is negative infinity, which has no rational counterpart;
the theorems about `calculateHeatmapStats` therefore assume at least one
record, and the `[]` branch below is an arbitrary placeholder that no
theorem relies on. -/
def jsMaxList : List ℚ → ℚ
  | [] => 0
  | x :: xs => xs.foldl max x

/-- `calculateHeatmapStats` (src/unnamed/part_004 lines 162-177):
totalIntensity by reduce-with-add over the records, maxIntensity by
`Math.max` over the cached per-record maxima, avgIntensity = total
divided by `totalMinutes`. -/
def calculateHeatmapStats (data : AggregatedHeatmapData) : HeatmapStats :=
  let totalIntensity :=
    data.records.foldl (fun sum r => sum + r.total_intensity) 0
  { totalMinutes := data.totalMinutes
    totalIntensity := totalIntensity
    maxIntensity := jsMaxList (data.records.map (fun r => r.max_intensity))
    avgIntensity := totalIntensity / (data.totalMinutes : ℚ) }

/-! ## Data access layer

Source: `HeatmapDao` in src/app/src/lib/dao/heatmapDao.ts and the image
endpoint in src/app/src/app/api/heatmap/image/route.ts. The database is
modelled as a list of rows; the WHERE clauses of the kysely query become
a filter and ORDER BY becomes a stable sort. The conversion of a date
string into the start/end instants of the day is JavaScript Date
handling, so the range endpoints are taken as parameters. -/

/-- The WHERE clause of `getHeatmapMinutes`: camera_id = ?, timestamp >=
startDate, timestamp < endDate. -/
def matchesRange (cameraId : String) (startDate endDate : Int)
    (r : HeatmapMinuteRecord) : Bool :=
  r.camera_id == cameraId && decide (startDate ≤ r.timestamp) &&
    decide (r.timestamp < endDate)

/-- `HeatmapDao.getHeatmapMinutes` (heatmapDao.ts lines 31-60): the rows
of the store matching camera and half-open time range, ordered ascending
by timestamp. -/
def getHeatmapMinutes (store : List HeatmapMinuteRecord) (cameraId : String)
    (startDate endDate : Int) : List HeatmapMinuteRecord :=
  (store.filter (matchesRange cameraId startDate endDate)).mergeSort
    (fun a b => decide (a.timestamp ≤ b.timestamp))

/-- `HeatmapDao.getAggregatedHeatmapData` (heatmapDao.ts lines 66-92):
fetch the range; `null` when empty, otherwise package the records with
the dimensions taken from the first record. -/
def getAggregatedHeatmapData (store : List HeatmapMinuteRecord)
    (cameraId : String) (startDate endDate : Int) :
    Option AggregatedHeatmapData :=
  let records := getHeatmapMinutes store cameraId startDate endDate
  match records with
  | [] => none
  | first :: _ =>
    some { height := first.height, width := first.width,
           records := records, totalMinutes := records.length }

/-- The data-existence gate of the image endpoint GET handler
(src/app/src/app/api/heatmap/image/route.ts lines 31-42): count the rows
matching camera and range and answer 404 when the count is zero; 200
stands for the successful image response produced further down the
handler. -/
def heatmapImageRouteStatus (store : List HeatmapMinuteRecord)
    (cameraId : String) (startDate endDate : Int) : Nat :=
  if (store.filter (matchesRange cameraId startDate endDate)).length = 0
  then 404 else 200

/-! ## Storage boundary

Source: constraint `unique_camera_minute UNIQUE(camera_id, timestamp)` in
src/db/migrations/001_initial_schema.sql lines 37-39. The writing side
(the Python pipeline driver) is not among the provided sources. -/

/-- Uniqueness invariant of the store: no two rows share the
(camera_id, timestamp) natural key. -/
def uniqueCameraMinute (store : List HeatmapMinuteRecord) : Prop :=
  (store.map (fun r => (r.camera_id, r.timestamp))).Nodup

/-- Insert of one intensity record, rejected (`none`) when a row with the
same (camera_id, timestamp) key already exists: the behaviour the
`unique_camera_minute` constraint of 001_initial_schema.sql forces on any
writer. -/
def insertIntensityRecord (store : List HeatmapMinuteRecord)
    (r : HeatmapMinuteRecord) : Option (List HeatmapMinuteRecord) :=
  if store.any (fun s => s.camera_id == r.camera_id &&
      decide (s.timestamp = r.timestamp))
  then none
  else some (store ++ [r])

/-- Modelled from the spec: one pipeline run over an input set (spec
sections 4.4 and 6; the Python driver is not among the provided sources):
insert-if-absent each produced record, treating a uniqueness rejection as
a benign skip. -/
def processBatch (store : List HeatmapMinuteRecord)
    (inputs : List HeatmapMinuteRecord) : List HeatmapMinuteRecord :=
  inputs.foldl
    (fun st r =>
      match insertIntensityRecord st r with
      | some st2 => st2
      | none => st)
    store

/-- Iterated pipeline runs over the same input set. -/
def repeatRuns (store : List HeatmapMinuteRecord)
    (inputs : List HeatmapMinuteRecord) : Nat → List HeatmapMinuteRecord
  | 0 => store
  | n + 1 => processBatch (repeatRuns store inputs n) inputs

/-! ## Concrete sample data for witnesses -/

/-- Sample record builder; fields irrelevant to a given witness get fixed
benign values. -/
def mkRecord (id : Nat) (cam : String) (ts : Int) (h w : Nat)
    (matrix : List ℚ) (tot mx : ℚ) : HeatmapMinuteRecord :=
  { id := id, camera_id := cam, timestamp := ts,
    video_path := "raw_videos/2025/10/20/14/clip.mp4",
    height := h, width := w, downscale_factor := 1,
    intensity_array := matrix, frame_count := 60,
    total_intensity := tot, max_intensity := mx,
    nonzero_pixels := 4, processed_at := ts }

def sampleRecA : HeatmapMinuteRecord :=
  mkRecord 1 "default" 0 2 2 [0, 10, 20, 30] 45 30

def sampleRecB : HeatmapMinuteRecord :=
  mkRecord 2 "default" 60000 1 4 [0, 10, 20, 30] 45 30

def sampleZero : HeatmapMinuteRecord :=
  mkRecord 3 "default" 120000 2 2 [0, 0, 0, 0] 0 0

def sampleDataA : AggregatedHeatmapData :=
  { height := 2, width := 2, records := [sampleRecA], totalMinutes := 1 }

def sampleDataAB : AggregatedHeatmapData :=
  { height := 2, width := 2, records := [sampleRecA, sampleRecB],
    totalMinutes := 2 }

def sampleDataZero : AggregatedHeatmapData :=
  { height := 2, width := 2, records := [sampleZero], totalMinutes := 1 }

/-! ## Codec lemmas -/

theorem inflateAux_replicate (n k : Nat) (bs : List Nat) :
    inflateAux k (List.replicate n 1 ++ 0 :: bs) =
      if bs.length = n + k then some bs else none := by
  induction n generalizing k with
  | zero => simp [inflateAux]
  | succ n ih =>
    rw [List.replicate_succ, List.cons_append]
    have hstep : inflateAux k (1 :: (List.replicate n 1 ++ 0 :: bs)) =
        inflateAux (k + 1) (List.replicate n 1 ++ 0 :: bs) := by
      simp [inflateAux]
    rw [hstep, ih (k + 1)]
    by_cases h : bs.length = n + (k + 1)
    · rw [if_pos h, if_pos (by omega)]
    · rw [if_neg h, if_neg (by omega)]

theorem inflate_deflate (bs : List Nat) :
    inflateModel (deflateModel bs) = some bs := by
  simp [inflateModel, deflateModel, inflateAux_replicate]

theorem bytesToWords_serializeMatrix (matrix : List Nat)
    (h : ∀ x ∈ matrix, x < 4294967296) :
    bytesToWords (serializeMatrix matrix) = matrix := by
  induction matrix with
  | nil => simp [serializeMatrix, bytesToWords]
  | cons w rest ih =>
    have hw : w < 4294967296 := h w (by simp)
    have hrest : bytesToWords (serializeMatrix rest) = rest :=
      ih (fun x hx => h x (by simp [hx]))
    simp only [serializeMatrix, List.map_cons, List.flatten_cons,
      word32ToLEBytes, List.cons_append, List.nil_append]
    rw [show (List.map word32ToLEBytes rest).flatten = serializeMatrix rest
        from rfl]
    simp [bytesToWords, hrest, leBytesToWord32]
    omega

theorem bytesToWords_length :
    ∀ (bs : List Nat), (bytesToWords bs).length = bs.length / 4
  | [] => by simp [bytesToWords]
  | [_] => by simp [bytesToWords]
  | [_, _] => by simp [bytesToWords]
  | [_, _, _] => by simp [bytesToWords]
  | _ :: _ :: _ :: _ :: rest => by
    simp only [bytesToWords, List.length_cons, bytesToWords_length rest]
    omega

/-! ## Claim theorems: codec -/

/-- C1: decoding (zlib-inflating the blob and reinterpreting the bytes as
32-bit little-endian words in row-major order) the result of encoding
(serializing row-major as float32 words and DEFLATE-compressing) returns
exactly the original matrix, bit for bit, for every matrix of
height * width float32 elements. -/
theorem encode_decode_roundtrip (matrix : List Nat) (height width : Nat)
    (hlen : matrix.length = height * width)
    (hbits : ∀ x ∈ matrix, x < 4294967296) :
    decompressHeatmap (encodeHeatmap matrix) height width =
      Except.ok matrix := by
  simp only [encodeHeatmap, decompressHeatmap, inflate_deflate,
    bytesToWords_serializeMatrix matrix hbits]
  simp [hlen]

theorem encode_decode_roundtrip_witness :
    ([0, 1069547520, 3212836864, 42] : List Nat).length = 2 * 2 ∧
    (∀ x ∈ ([0, 1069547520, 3212836864, 42] : List Nat), x < 4294967296) ∧
    decompressHeatmap (encodeHeatmap [0, 1069547520, 3212836864, 42]) 2 2 =
      Except.ok [0, 1069547520, 3212836864, 42] :=
  ⟨by decide, by decide,
    encode_decode_roundtrip [0, 1069547520, 3212836864, 42] 2 2
      (by decide) (by decide)⟩

/-- C2 (counterexample): a blob whose decompressed byte length is 5,
which differs from height * width * 4 = 4, is nevertheless decoded
without error for a 1x1 request: the JavaScript Float32Array view
truncates the trailing byte, the element-count check passes, and a
truncated matrix is returned to the caller. -/
theorem decode_bytelength_counterexample :
    inflateModel (deflateModel [0, 0, 0, 0, 0]) = some [0, 0, 0, 0, 0] ∧
    ([0, 0, 0, 0, 0] : List Nat).length ≠ 1 * 1 * 4 ∧
    decompressHeatmap (deflateModel [0, 0, 0, 0, 0]) 1 1 =
      Except.ok [0] := by
  refine ⟨by decide, by decide, by rfl⟩

/-- C2 (amended): for every blob that inflates successfully, decoding
raises an error if and only if the number of whole 32-bit words in the
decompressed bytes (byte length divided by 4, rounding down: the element
count of the Float32Array view) differs from height * width; when the
counts agree the words of the view are returned, so a decompressed blob
of height * width * 4 + r bytes with 1 <= r <= 3 is accepted and its
trailing bytes are silently dropped rather than raising an error. -/
theorem decompressHeatmap_error_iff (blob decompressed : List Nat)
    (height width : Nat)
    (hinf : inflateModel blob = some decompressed) :
    (decompressHeatmap blob height width =
        Except.ok (bytesToWords decompressed) ↔
      decompressed.length / 4 = height * width) ∧
    ((∃ e, decompressHeatmap blob height width = Except.error e) ↔
      decompressed.length / 4 ≠ height * width) := by
  have hl := bytesToWords_length decompressed
  unfold decompressHeatmap
  rw [hinf]
  by_cases h : decompressed.length / 4 = height * width
  · simp [hl, h]
  · simp [hl, h]

theorem decompressHeatmap_error_iff_witness :
    inflateModel (deflateModel [0, 0, 0, 0]) = some [0, 0, 0, 0] ∧
    decompressHeatmap (deflateModel [0, 0, 0, 0]) 1 1 =
      Except.ok (bytesToWords [0, 0, 0, 0]) :=
  ⟨by decide,
    (decompressHeatmap_error_iff (deflateModel [0, 0, 0, 0]) [0, 0, 0, 0]
      1 1 (by decide)).1.mpr (by decide)⟩

/-! ## Colormap lemmas -/

theorem jsRound_bounds (c : ℚ) (h0 : 0 ≤ c) (h1 : c ≤ 1) :
    0 ≤ jsRound (c * 255) ∧ jsRound (c * 255) ≤ 255 := by
  unfold jsRound
  constructor
  · exact Int.le_floor.mpr (by push_cast; linarith)
  · have hlt : (⌊c * 255 + 1 / 2⌋ : ℤ) < 256 :=
      Int.floor_lt.mpr (by push_cast; linarith)
    omega

theorem applyJetColormap_channels (q : ℚ) :
    ∃ r g b : ℚ,
      applyJetColormap q = (jsRound (r * 255), jsRound (g * 255), jsRound (b * 255)) ∧
      0 ≤ r ∧ r ≤ 1 ∧ 0 ≤ g ∧ g ≤ 1 ∧ 0 ≤ b ∧ b ≤ 1 := by
  have hv0 : (0 : ℚ) ≤ max 0 (min 1 q) := le_max_left _ _
  have hv1 : max 0 (min 1 q) ≤ 1 := max_le (by norm_num) (min_le_left _ _)
  unfold applyJetColormap
  dsimp only
  split_ifs with h1 h2 h3 h4
  · exact ⟨0, 0, 1 / 2 + max 0 (min 1 q) * 4, rfl,
      le_refl 0, by norm_num, le_refl 0, by norm_num, by linarith, by linarith⟩
  · exact ⟨0, (max 0 (min 1 q) - 1 / 8) * 4, 1, rfl,
      le_refl 0, by norm_num, by linarith, by linarith, by norm_num, by norm_num⟩
  · exact ⟨(max 0 (min 1 q) - 3 / 8) * 4, 1, 1 - (max 0 (min 1 q) - 3 / 8) * 4,
      rfl, by linarith, by linarith, by norm_num, by norm_num, by linarith,
      by linarith⟩
  · exact ⟨1, 1 - (max 0 (min 1 q) - 5 / 8) * 4, 0, rfl,
      by norm_num, by norm_num, by linarith, by linarith, le_refl 0, by norm_num⟩
  · exact ⟨1 - (max 0 (min 1 q) - 7 / 8) * 4, 0, 0, rfl,
      by linarith, by linarith, le_refl 0, by norm_num, le_refl 0, by norm_num⟩

theorem applyJetColormap_clamp_congr (q q2 : ℚ)
    (h : max 0 (min 1 q) = max 0 (min 1 q2)) :
    applyJetColormap q = applyJetColormap q2 := by
  unfold applyJetColormap
  rw [h]

theorem applyJetColormap_zero : applyJetColormap 0 = (0, 0, 128) := by
  unfold applyJetColormap jsRound
  norm_num [min_def, max_def, Int.floor_eq_iff]

theorem applyJetColormap_one : applyJetColormap 1 = (128, 0, 0) := by
  unfold applyJetColormap jsRound
  norm_num [min_def, max_def, Int.floor_eq_iff]

/-! ## Claim theorem: colormap totality -/

/-- C10: for every rational input, including values below 0 and above 1,
the jet colormap first clamps the input into [0,1] and returns three
channel values each within [0,255]; inputs at or below 0 yield the dark
blue base color (0, 0, 128) and inputs at or above 1 yield the top color
(128, 0, 0). -/
theorem applyJetColormap_total_clamped (q : ℚ) :
    (0 ≤ (applyJetColormap q).1 ∧ (applyJetColormap q).1 ≤ 255) ∧
    (0 ≤ (applyJetColormap q).2.1 ∧ (applyJetColormap q).2.1 ≤ 255) ∧
    (0 ≤ (applyJetColormap q).2.2 ∧ (applyJetColormap q).2.2 ≤ 255) ∧
    (q ≤ 0 → applyJetColormap q = (0, 0, 128)) ∧
    (1 ≤ q → applyJetColormap q = (128, 0, 0)) := by
  obtain ⟨r, g, b, heq, hr0, hr1, hg0, hg1, hb0, hb1⟩ :=
    applyJetColormap_channels q
  refine ⟨?_, ?_, ?_, ?_, ?_⟩
  · rw [heq]; exact jsRound_bounds r hr0 hr1
  · rw [heq]; exact jsRound_bounds g hg0 hg1
  · rw [heq]; exact jsRound_bounds b hb0 hb1
  · intro hq
    have hcl : max 0 (min 1 q) = max 0 (min 1 (0 : ℚ)) := by
      have : min 1 q ≤ 0 := le_trans (min_le_right _ _) hq
      rw [max_eq_left this]
      norm_num
    rw [applyJetColormap_clamp_congr q 0 hcl, applyJetColormap_zero]
  · intro hq
    have hcl : max 0 (min 1 q) = max 0 (min 1 (1 : ℚ)) := by
      have : min 1 q = 1 := min_eq_left hq
      rw [this]
      norm_num
    rw [applyJetColormap_clamp_congr q 1 hcl, applyJetColormap_one]

theorem applyJetColormap_total_clamped_witness :
    applyJetColormap (-7) = (0, 0, 128) ∧ applyJetColormap 3 = (128, 0, 0) :=
  ⟨(applyJetColormap_total_clamped (-7)).2.2.2.1 (by norm_num),
    (applyJetColormap_total_clamped 3).2.2.2.2 (by norm_num)⟩

/-! ## Aggregation lemmas -/

theorem getD_replicate_zero (n i : Nat) :
    (List.replicate n (0 : ℚ)).getD i 0 = 0 := by
  rw [List.getD_eq_getElem?_getD, List.getElem?_replicate]
  split <;> rfl

theorem getD_zipWith_add (a b : List ℚ) (i : Nat)
    (ha : i < a.length) (hb : i < b.length) :
    (List.zipWith (fun x y => x + y) a b).getD i 0 =
      a.getD i 0 + b.getD i 0 := by
  have hl : i < (List.zipWith (fun x y => x + y) a b).length := by
    rw [List.length_zipWith]; omega
  rw [List.getD_eq_getElem?_getD, List.getElem?_eq_getElem hl,
    List.getD_eq_getElem?_getD, List.getElem?_eq_getElem ha,
    List.getD_eq_getElem?_getD, List.getElem?_eq_getElem hb]
  simp [List.getElem_zipWith]

theorem getD_map_colormap (f : ℚ → ℤ × ℤ × ℤ) (l : List ℚ) (i : Nat)
    (hi : i < l.length) :
    (l.map f).getD i (0, 0, 0) = f (l.getD i 0) := by
  rw [List.getD_eq_getElem?_getD, List.getElem?_map,
    List.getElem?_eq_getElem hi, List.getD_eq_getElem?_getD,
    List.getElem?_eq_getElem hi]
  rfl

theorem validateMatrix_ok_iff (matrix : List ℚ) (height width : Nat)
    (out : List ℚ) :
    validateMatrix matrix height width = Except.ok out ↔
      matrix.length = height * width ∧ out = matrix := by
  unfold validateMatrix
  split_ifs with hc
  · simp [hc]
  · push_neg at hc
    simp [hc, eq_comm]

theorem sumHeatmaps_ok (height width : Nat)
    (records : List HeatmapMinuteRecord) :
    ∀ (acc agg : List ℚ), acc.length = height * width →
      sumHeatmaps height width records acc = Except.ok agg →
      agg.length = height * width ∧
      ∀ i, i < height * width →
        agg.getD i 0 = acc.getD i 0 +
          (records.map (fun r => r.intensity_array.getD i 0)).sum := by
  induction records with
  | nil =>
    intro acc agg hacc hok
    simp only [sumHeatmaps, Except.ok.injEq] at hok
    subst hok
    simp [hacc]
  | cons record rest ih =>
    intro acc agg hacc hok
    simp only [sumHeatmaps] at hok
    cases hval : validateMatrix record.intensity_array height width with
    | error e => simp [hval] at hok
    | ok heatmap =>
      simp only [hval] at hok
      obtain ⟨hlen, rfl⟩ := (validateMatrix_ok_iff _ _ _ _).mp hval
      have hacc2 : (List.zipWith (fun a b => a + b) acc
          record.intensity_array).length = height * width := by
        rw [List.length_zipWith]; omega
      obtain ⟨hlen2, hsum⟩ := ih _ agg hacc2 hok
      refine ⟨hlen2, fun i hi => ?_⟩
      rw [hsum i hi,
        getD_zipWith_add acc record.intensity_array i (by omega) (by omega)]
      simp only [List.map_cons, List.sum_cons]
      ring

theorem sumHeatmaps_isOk (height width : Nat)
    (records : List HeatmapMinuteRecord) :
    ∀ acc, (∀ r ∈ records, r.intensity_array.length = height * width) →
      ∃ agg, sumHeatmaps height width records acc = Except.ok agg := by
  induction records with
  | nil => intro acc _; exact ⟨acc, rfl⟩
  | cons record rest ih =>
    intro acc hall
    have hrec : record.intensity_array.length = height * width :=
      hall record (List.mem_cons_self _ _)
    have hval : validateMatrix record.intensity_array height width =
        Except.ok record.intensity_array :=
      (validateMatrix_ok_iff _ _ _ _).mpr ⟨hrec, rfl⟩
    obtain ⟨agg, hagg⟩ := ih (List.zipWith (fun a b => a + b) acc
        record.intensity_array)
      (fun r hr => hall r (List.mem_cons_of_mem _ hr))
    exact ⟨agg, by simp only [sumHeatmaps, hval]; exact hagg⟩

theorem sumHeatmaps_isErr (height width : Nat)
    (records : List HeatmapMinuteRecord) :
    ∀ acc, (∃ r ∈ records, r.intensity_array.length ≠ height * width) →
      ∃ e, sumHeatmaps height width records acc = Except.error e := by
  induction records with
  | nil => intro acc h; simp at h
  | cons record rest ih =>
    intro acc h
    by_cases hrec : record.intensity_array.length = height * width
    · have hval : validateMatrix record.intensity_array height width =
          Except.ok record.intensity_array :=
        (validateMatrix_ok_iff _ _ _ _).mpr ⟨hrec, rfl⟩
      obtain ⟨r, hr, hne⟩ := h
      rcases List.mem_cons.mp hr with rfl | hr2
      · exact absurd hrec hne
      · obtain ⟨e, he⟩ := ih (List.zipWith (fun a b => a + b) acc
            record.intensity_array) ⟨r, hr2, hne⟩
        exact ⟨e, by simp only [sumHeatmaps, hval]; exact he⟩
    · have hval : validateMatrix record.intensity_array height width =
          Except.error ("Invalid heatmap dimensions: expected " ++
            toString (height * width) ++ ", got " ++
            toString record.intensity_array.length) := by
        unfold validateMatrix
        rw [if_pos hrec]
      refine ⟨"Invalid heatmap dimensions: expected " ++
        toString (height * width) ++ ", got " ++
        toString record.intensity_array.length, ?_⟩
      simp only [sumHeatmaps, hval]

theorem aggregateHeatmaps_ok (data : AggregatedHeatmapData) (agg : List ℚ)
    (hok : aggregateHeatmaps data = Except.ok agg) :
    agg.length = data.height * data.width ∧
    ∀ i, i < data.height * data.width →
      agg.getD i 0 =
        (data.records.map (fun r => r.intensity_array.getD i 0)).sum := by
  obtain ⟨hlen, hsum⟩ := sumHeatmaps_ok data.height data.width data.records
    (List.replicate (data.height * data.width) 0) agg (by simp) hok
  exact ⟨hlen, fun i hi => by rw [hsum i hi, getD_replicate_zero, zero_add]⟩

theorem le_listMaxFold_foldl (l : List ℚ) :
    ∀ acc : ℚ, acc ≤ l.foldl (fun m v => if v > m then v else m) acc := by
  induction l with
  | nil => intro acc; simp
  | cons x xs ih =>
    intro acc
    simp only [List.foldl_cons]
    refine le_trans ?_ (ih (if x > acc then x else acc))
    split <;> [linarith; exact le_refl _]

theorem listMaxFold_nonneg (l : List ℚ) : 0 ≤ listMaxFold l :=
  le_listMaxFold_foldl l 0

theorem listMaxFold_all_zero (l : List ℚ) (h : ∀ x ∈ l, x = 0) :
    listMaxFold l = 0 := by
  unfold listMaxFold
  induction l with
  | nil => rfl
  | cons x xs ih =>
    have hx : x = 0 := h x (List.mem_cons_self _ _)
    simp only [List.foldl_cons, hx]
    rw [if_neg (by norm_num)]
    exact ih (fun y hy => h y (List.mem_cons_of_mem _ hy))

/-! ## Claim theorems: renderer -/

/-- C3: whenever the aggregate has a strictly positive maximum, the pixel
holding that maximum is colored with the top of the five-segment jet
color scale (the value-1 end, (128, 0, 0)) and every pixel whose
aggregate value is zero gets the base color of the scale, dark blue
(0, 0, 128). -/
theorem generateHeatmapImage_extreme_colors (data : AggregatedHeatmapData)
    (agg : List ℚ) (hagg : aggregateHeatmaps data = Except.ok agg)
    (hpos : 0 < listMaxFold agg) :
    applyJetColormap 1 = (128, 0, 0) ∧
    applyJetColormap 0 = (0, 0, 128) ∧
    ∃ pixels, generateHeatmapImage data = Except.ok pixels ∧
      pixels.length = agg.length ∧
      (∀ i, i < agg.length → agg.getD i 0 = listMaxFold agg →
        pixels.getD i (0, 0, 0) = (128, 0, 0)) ∧
      (∀ i, i < agg.length → agg.getD i 0 = 0 →
        pixels.getD i (0, 0, 0) = (0, 0, 128)) := by
  refine ⟨applyJetColormap_one, applyJetColormap_zero, ?_⟩
  have hne : listMaxFold agg ≠ 0 := ne_of_gt hpos
  unfold generateHeatmapImage
  simp only [hagg, hne, if_false, ite_false]
  refine ⟨_, rfl, by simp, ?_, ?_⟩
  · intro i hi hmax
    rw [getD_map_colormap _ _ _ hi, hmax, div_self hne, applyJetColormap_one]
  · intro i hi hzero
    rw [getD_map_colormap _ _ _ hi, hzero, zero_div, applyJetColormap_zero]

theorem generateHeatmapImage_extreme_colors_witness :
    ∃ pixels, generateHeatmapImage sampleDataA = Except.ok pixels ∧
      pixels.getD 3 (0, 0, 0) = (128, 0, 0) ∧
      pixels.getD 0 (0, 0, 0) = (0, 0, 128) := by
  have hagg : aggregateHeatmaps sampleDataA = Except.ok [0, 10, 20, 30] := by
    simp [aggregateHeatmaps, sumHeatmaps, validateMatrix, sampleDataA,
      sampleRecA, mkRecord]
  have hmax : listMaxFold [0, 10, 20, 30] = 30 := by
    norm_num [listMaxFold]
  obtain ⟨-, -, pixels, hp, hlen, hmaxpix, hzeropix⟩ :=
    generateHeatmapImage_extreme_colors sampleDataA [0, 10, 20, 30] hagg
      (by rw [hmax]; norm_num)
  refine ⟨pixels, hp, ?_, ?_⟩
  · refine hmaxpix 3 (by norm_num) ?_
    rw [hmax]
    norm_num
  · exact hzeropix 0 (by norm_num) (by norm_num)

/-- C4: the renderer clamps a zero normalization maximum to 1: the
effective denominator is always strictly positive (so the per-pixel
division never divides by zero), and when the aggregate is entirely zero
the denominator becomes 1 and a well-formed image is produced in which
every pixel carries the base color (0, 0, 128). -/
theorem generateHeatmapImage_zero_guard (data : AggregatedHeatmapData)
    (agg : List ℚ) (hagg : aggregateHeatmaps data = Except.ok agg) :
    (0 < if listMaxFold agg = 0 then (1 : ℚ) else listMaxFold agg) ∧
    ((∀ x ∈ agg, x = 0) →
      (if listMaxFold agg = 0 then (1 : ℚ) else listMaxFold agg) = 1 ∧
      ∃ pixels, generateHeatmapImage data = Except.ok pixels ∧
        pixels.length = agg.length ∧
        ∀ p ∈ pixels, p = (0, 0, 128)) := by
  constructor
  · split_ifs with h
    · norm_num
    · exact lt_of_le_of_ne (listMaxFold_nonneg agg) (Ne.symm h)
  · intro hzero
    have hmax : listMaxFold agg = 0 := listMaxFold_all_zero agg hzero
    refine ⟨by rw [hmax]; simp, ?_⟩
    unfold generateHeatmapImage
    simp only [hagg, hmax, if_true, ite_true]
    refine ⟨_, rfl, by simp, ?_⟩
    intro p hp
    obtain ⟨x, hx, rfl⟩ := List.mem_map.mp hp
    rw [hzero x hx, zero_div, applyJetColormap_zero]

theorem generateHeatmapImage_zero_guard_witness :
    ∃ pixels, generateHeatmapImage sampleDataZero = Except.ok pixels ∧
      ∀ p ∈ pixels, p = (0, 0, 128) := by
  have hagg : aggregateHeatmaps sampleDataZero = Except.ok [0, 0, 0, 0] := by
    simp [aggregateHeatmaps, sumHeatmaps, validateMatrix, sampleDataZero,
      sampleZero, mkRecord]
  obtain ⟨-, hall⟩ := generateHeatmapImage_zero_guard sampleDataZero
    [0, 0, 0, 0] hagg
  obtain ⟨-, pixels, hp, -, hbase⟩ := hall (by norm_num)
  exact ⟨pixels, hp, hbase⟩

/-! ## Statistics lemmas -/

theorem foldl_add_map (f : HeatmapMinuteRecord → ℚ) :
    ∀ (l : List HeatmapMinuteRecord) (acc : ℚ),
      l.foldl (fun sum r => sum + f r) acc = acc + (l.map f).sum := by
  intro l
  induction l with
  | nil => intro acc; simp
  | cons r rest ih =>
    intro acc
    simp only [List.foldl_cons, List.map_cons, List.sum_cons, ih]
    ring

theorem foldl_max_mem : ∀ (xs : List ℚ) (x : ℚ), xs.foldl max x ∈ x :: xs := by
  intro xs
  induction xs with
  | nil => intro x; simp
  | cons y ys ih =>
    intro x
    simp only [List.foldl_cons]
    rcases List.mem_cons.mp (ih (max x y)) with h1 | h2
    · rcases max_choice x y with hc | hc
      · rw [h1, hc]; exact List.mem_cons_self _ _
      · rw [h1, hc]; exact List.mem_cons_of_mem _ (List.mem_cons_self _ _)
    · exact List.mem_cons_of_mem _ (List.mem_cons_of_mem _ h2)

theorem le_foldl_max :
    ∀ (xs : List ℚ) (x y : ℚ), y ∈ x :: xs → y ≤ xs.foldl max x := by
  intro xs
  induction xs with
  | nil =>
    intro x y hy
    simp only [List.foldl_nil]
    rcases List.mem_cons.mp hy with rfl | h
    · exact le_refl _
    · simp at h
  | cons z zs ih =>
    intro x y hy
    simp only [List.foldl_cons]
    rcases List.mem_cons.mp hy with rfl | h
    · exact le_trans (le_max_left y z) (ih (max y z) (max y z)
        (List.mem_cons_self _ _))
    · rcases List.mem_cons.mp h with rfl | h2
      · exact le_trans (le_max_right x y) (ih (max x y) (max x y)
          (List.mem_cons_self _ _))
      · exact ih (max x z) y (List.mem_cons_of_mem _ h2)

/-! ## Claim theorems: statistics and shape checking -/

/-- C5: for aggregated data with at least one record,
calculateHeatmapStats returns totalIntensity equal to the sum of the
cached total_intensity fields, maxIntensity equal to the maximum of the
cached max_intensity fields (it is one of them and bounds them all), and
avgIntensity equal to totalIntensity divided by totalMinutes; and the
aggregate matrix of the renderer is the elementwise sum of all decoded
record matrices. -/
theorem calculateHeatmapStats_spec (data : AggregatedHeatmapData)
    (hne : data.records ≠ []) :
    (calculateHeatmapStats data).totalMinutes = data.totalMinutes ∧
    (calculateHeatmapStats data).totalIntensity =
      (data.records.map (fun r => r.total_intensity)).sum ∧
    (calculateHeatmapStats data).maxIntensity ∈
      data.records.map (fun r => r.max_intensity) ∧
    (∀ r ∈ data.records,
      r.max_intensity ≤ (calculateHeatmapStats data).maxIntensity) ∧
    (calculateHeatmapStats data).avgIntensity =
      (calculateHeatmapStats data).totalIntensity /
        (data.totalMinutes : ℚ) ∧
    (∀ agg, aggregateHeatmaps data = Except.ok agg →
      agg.length = data.height * data.width ∧
      ∀ i, i < data.height * data.width →
        agg.getD i 0 =
          (data.records.map (fun r => r.intensity_array.getD i 0)).sum) := by
  obtain ⟨first, rest, hrec⟩ := List.exists_cons_of_ne_nil hne
  refine ⟨rfl, ?_, ?_, ?_, rfl, ?_⟩
  · show data.records.foldl (fun sum r => sum + r.total_intensity) 0 = _
    rw [foldl_add_map]
    exact zero_add _
  · show jsMaxList (data.records.map fun r => r.max_intensity) ∈ _
    rw [hrec]
    simp only [List.map_cons, jsMaxList]
    exact foldl_max_mem _ _
  · intro r hr
    show r.max_intensity ≤
      jsMaxList (data.records.map fun r => r.max_intensity)
    rw [hrec] at hr
    rw [hrec]
    simp only [List.map_cons, jsMaxList]
    refine le_foldl_max _ _ _ ?_
    rcases List.mem_cons.mp hr with rfl | h
    · exact List.mem_cons_self _ _
    · exact List.mem_cons_of_mem _ (List.mem_map_of_mem _ h)
  · intro agg hagg
    exact aggregateHeatmaps_ok data agg hagg

theorem calculateHeatmapStats_spec_witness :
    sampleDataAB.records ≠ [] ∧
    (calculateHeatmapStats sampleDataAB).totalIntensity = 90 ∧
    (calculateHeatmapStats sampleDataAB).avgIntensity = 45 := by
  have h := calculateHeatmapStats_spec sampleDataAB (by decide)
  refine ⟨by decide, ?_, ?_⟩
  · rw [h.2.1]
    norm_num [sampleDataAB, sampleRecA, sampleRecB, mkRecord]
  · rw [h.2.2.2.2.1, h.2.1]
    norm_num [sampleDataAB, sampleRecA, sampleRecB, mkRecord]

/-- C9: during aggregation every record is decoded against the dimensions
of the request, which the data-access layer takes from the first record;
aggregation fails with an error exactly when some decompressed matrix has
an element count different from that height * width, so a record whose
own height/width fields disagree with the first record but whose matrix
has the matching element count is summed without any reported error. -/
theorem aggregate_shape_check (data : AggregatedHeatmapData) :
    ((∃ e, aggregateHeatmaps data = Except.error e) ↔
      ∃ r ∈ data.records,
        r.intensity_array.length ≠ data.height * data.width) ∧
    ((∃ agg, aggregateHeatmaps data = Except.ok agg) ↔
      ∀ r ∈ data.records,
        r.intensity_array.length = data.height * data.width) ∧
    (∀ store cameraId startDate endDate d2,
      getAggregatedHeatmapData store cameraId startDate endDate = some d2 →
      ∃ first rest, d2.records = first :: rest ∧
        d2.height = first.height ∧ d2.width = first.width) := by
  have hok : (∃ agg, aggregateHeatmaps data = Except.ok agg) ↔
      ∀ r ∈ data.records,
        r.intensity_array.length = data.height * data.width := by
    constructor
    · rintro ⟨agg, hagg⟩ r hr
      by_contra hne
      obtain ⟨e, he⟩ := sumHeatmaps_isErr data.height data.width data.records
        (List.replicate (data.height * data.width) 0) ⟨r, hr, hne⟩
      unfold aggregateHeatmaps at hagg
      rw [he] at hagg
      simp at hagg
    · intro hall
      obtain ⟨agg, hagg⟩ := sumHeatmaps_isOk data.height data.width
        data.records (List.replicate (data.height * data.width) 0) hall
      exact ⟨agg, by unfold aggregateHeatmaps; exact hagg⟩
  refine ⟨?_, hok, ?_⟩
  · constructor
    · rintro ⟨e, he⟩
      by_contra hno
      push_neg at hno
      obtain ⟨agg, hagg⟩ := hok.mpr hno
      rw [he] at hagg
      simp at hagg
    · rintro ⟨r, hr, hne⟩
      obtain ⟨e, he⟩ := sumHeatmaps_isErr data.height data.width data.records
        (List.replicate (data.height * data.width) 0) ⟨r, hr, hne⟩
      exact ⟨e, by unfold aggregateHeatmaps; exact he⟩
  · intro store cameraId startDate endDate d2 hd
    unfold getAggregatedHeatmapData at hd
    cases hrec : getHeatmapMinutes store cameraId startDate endDate with
    | nil =>
      rw [hrec] at hd
      simp at hd
    | cons f rest =>
      rw [hrec] at hd
      simp only [Option.some.injEq] at hd
      exact ⟨f, rest, by rw [← hd], by rw [← hd], by rw [← hd]⟩

theorem aggregate_shape_check_witness :
    sampleRecB.height ≠ sampleDataAB.height ∧
    sampleRecB ∈ sampleDataAB.records ∧
    ∃ agg, aggregateHeatmaps sampleDataAB = Except.ok agg :=
  ⟨by decide, by decide,
    (aggregate_shape_check sampleDataAB).2.1.mpr (by decide)⟩

/-! ## Data-access lemmas -/

theorem matchesRange_iff (cameraId : String) (startDate endDate : Int)
    (r : HeatmapMinuteRecord) :
    matchesRange cameraId startDate endDate r = true ↔
      r.camera_id = cameraId ∧ startDate ≤ r.timestamp ∧
        r.timestamp < endDate := by
  simp [matchesRange, Bool.and_eq_true, decide_eq_true_eq, beq_iff_eq,
    and_assoc]

/-! ## Claim theorems: data access and storage -/

/-- C6: when no stored record matches the requested camera and half-open
time range, getAggregatedHeatmapData returns null and the image endpoint
answers 404, a distinct no-data outcome rather than an exception or a
blank image. -/
theorem empty_range_no_data (store : List HeatmapMinuteRecord)
    (cameraId : String) (startDate endDate : Int)
    (hempty : ∀ r ∈ store,
      ¬(r.camera_id = cameraId ∧ startDate ≤ r.timestamp ∧
        r.timestamp < endDate)) :
    getAggregatedHeatmapData store cameraId startDate endDate = none ∧
    heatmapImageRouteStatus store cameraId startDate endDate = 404 := by
  have hfil : store.filter (matchesRange cameraId startDate endDate) = [] := by
    rw [List.filter_eq_nil_iff]
    intro r hr hmatch
    exact hempty r hr ((matchesRange_iff _ _ _ _).mp hmatch)
  constructor
  · unfold getAggregatedHeatmapData getHeatmapMinutes
    rw [hfil]
    simp [List.mergeSort_nil]
  · unfold heatmapImageRouteStatus
    rw [hfil]
    simp

theorem empty_range_no_data_witness :
    getAggregatedHeatmapData [sampleRecA] "other" 0 100 = none ∧
    heatmapImageRouteStatus [sampleRecA] "other" 0 100 = 404 :=
  empty_range_no_data [sampleRecA] "other" 0 100 (by decide)

/-- C8: getHeatmapMinutes returns exactly the stored records whose
camera_id equals the requested camera and whose timestamp lies in the
half-open interval [startDate, endDate): membership and multiplicity are
those of the matching rows of the store, and the result is ordered
ascending by timestamp. -/
theorem getHeatmapMinutes_range_query (store : List HeatmapMinuteRecord)
    (cameraId : String) (startDate endDate : Int) :
    (∀ r, r ∈ getHeatmapMinutes store cameraId startDate endDate ↔
      r ∈ store ∧ r.camera_id = cameraId ∧ startDate ≤ r.timestamp ∧
        r.timestamp < endDate) ∧
    (∀ r, (getHeatmapMinutes store cameraId startDate endDate).count r =
      if r.camera_id = cameraId ∧ startDate ≤ r.timestamp ∧
          r.timestamp < endDate
      then store.count r else 0) ∧
    (getHeatmapMinutes store cameraId startDate endDate).Pairwise
      (fun a b => a.timestamp ≤ b.timestamp) := by
  refine ⟨?_, ?_, ?_⟩
  · intro r
    unfold getHeatmapMinutes
    rw [List.mem_mergeSort, List.mem_filter, matchesRange_iff]
  · intro r
    have hperm : (getHeatmapMinutes store cameraId startDate endDate).Perm
        (store.filter (matchesRange cameraId startDate endDate)) :=
      List.mergeSort_perm _ _
    rw [hperm.count_eq]
    by_cases h : r.camera_id = cameraId ∧ startDate ≤ r.timestamp ∧
        r.timestamp < endDate
    · rw [if_pos h, List.count_filter ((matchesRange_iff _ _ _ _).mpr h)]
    · rw [if_neg h, List.count_eq_zero]
      intro hmem
      exact h ((matchesRange_iff _ _ _ _).mp (List.mem_filter.mp hmem).2)
  · unfold getHeatmapMinutes
    refine List.Pairwise.imp ?_
      (List.sorted_mergeSort ?_ ?_
        (store.filter (matchesRange cameraId startDate endDate)))
    · intro a b hab
      exact of_decide_eq_true hab
    · intro a b c hab hbc
      simp only [decide_eq_true_eq] at *
      omega
    · intro a b
      rcases le_total a.timestamp b.timestamp with h | h <;> simp [h]

theorem getHeatmapMinutes_range_query_witness :
    sampleRecA ∈ getHeatmapMinutes [sampleRecA] "default" 0 100 :=
  ((getHeatmapMinutes_range_query [sampleRecA] "default" 0 100).1
    sampleRecA).mpr ⟨by decide, by decide, by decide, by decide⟩

/-! ## Storage-boundary lemmas -/

theorem insertIntensityRecord_some (store : List HeatmapMinuteRecord)
    (r : HeatmapMinuteRecord) (st2 : List HeatmapMinuteRecord)
    (hins : insertIntensityRecord store r = some st2) :
    st2 = store ++ [r] ∧
    ∀ s ∈ store, ¬(s.camera_id = r.camera_id ∧ s.timestamp = r.timestamp) := by
  unfold insertIntensityRecord at hins
  split_ifs at hins with hany
  refine ⟨(Option.some.inj hins).symm, ?_⟩
  intro s hs hkey
  apply hany
  rw [List.any_eq_true]
  exact ⟨s, hs, by simp [hkey.1, hkey.2]⟩

theorem insert_preserves_unique (store : List HeatmapMinuteRecord)
    (r : HeatmapMinuteRecord) (st2 : List HeatmapMinuteRecord)
    (hinv : uniqueCameraMinute store)
    (hins : insertIntensityRecord store r = some st2) :
    uniqueCameraMinute st2 := by
  obtain ⟨rfl, hfresh⟩ := insertIntensityRecord_some store r st2 hins
  unfold uniqueCameraMinute at hinv ⊢
  rw [List.map_append, List.nodup_append]
  refine ⟨hinv, by simp, ?_⟩
  intro key hkey1 hkey2
  obtain ⟨s, hs, rfl⟩ := List.mem_map.mp hkey1
  simp only [List.map_cons, List.map_nil, List.mem_singleton,
    Prod.mk.injEq] at hkey2
  exact hfresh s hs ⟨hkey2.1, hkey2.2⟩

theorem processBatch_preserves (inputs : List HeatmapMinuteRecord) :
    ∀ store, uniqueCameraMinute store →
      uniqueCameraMinute (processBatch store inputs) := by
  induction inputs with
  | nil =>
    intro store h
    simpa [processBatch] using h
  | cons i rest ih =>
    intro store h
    have hstep : processBatch store (i :: rest) =
        processBatch
          (match insertIntensityRecord store i with
            | some st2 => st2
            | none => store) rest := by
      simp [processBatch]
    rw [hstep]
    cases hins : insertIntensityRecord store i with
    | none =>
      simp only [hins]
      exact ih store h
    | some st2 =>
      simp only [hins]
      exact ih st2 (insert_preserves_unique store i st2 h hins)

/-- C7: at most one record exists per (camera_id, timestamp) pair: the
invariant holds after any number of pipeline runs over the same input
set, and the storage boundary rejects a second insert carrying the key of
an already-inserted record. -/
theorem unique_camera_minute_invariant (store inputs : List HeatmapMinuteRecord)
    (r r2 : HeatmapMinuteRecord) (hinv : uniqueCameraMinute store) :
    (∀ n, uniqueCameraMinute (repeatRuns store inputs n)) ∧
    (∀ st2, insertIntensityRecord store r = some st2 →
      r2.camera_id = r.camera_id → r2.timestamp = r.timestamp →
      insertIntensityRecord st2 r2 = none) := by
  constructor
  · intro n
    induction n with
    | zero => exact hinv
    | succ n ihn => exact processBatch_preserves inputs _ ihn
  · intro st2 hins hc ht
    obtain ⟨rfl, -⟩ := insertIntensityRecord_some store r st2 hins
    unfold insertIntensityRecord
    rw [if_pos ?_]
    rw [List.any_eq_true]
    exact ⟨r, List.mem_append_right _ (List.mem_singleton.mpr rfl),
      by simp [hc, ht]⟩

theorem unique_camera_minute_invariant_witness :
    uniqueCameraMinute (repeatRuns [] [sampleRecA, sampleRecA] 2) ∧
    insertIntensityRecord ([] ++ [sampleRecA]) sampleRecA = none := by
  have h := unique_camera_minute_invariant [] [sampleRecA, sampleRecA]
    sampleRecA sampleRecA (by simp [uniqueCameraMinute])
  exact ⟨h.1 2, h.2 ([] ++ [sampleRecA]) (by decide) rfl rfl⟩

end Roz
